import Mathlib

/-!
Shallow embedding of the refactorjs/ofetch interceptor pipeline.

The embedding translates:
  * `src/adapters/InterceptorManager.ts` — the interceptor registry
    (`use` / `eject` / `clear` / `forEach`);
  * `src/ofetch.ts` `request` — config resolution, chain building, and the
    two execution strategies (promise chain vs. synchronous loop);
  * `src/ofetch.ts` `#dispatchRequest` / `#addXSRFHeader` /
    `serializeQuery` and the v2 `cleanParams` helper.

JavaScript exceptions are modelled with `Except`.  A thrown value is
`Except.error`; the distinguished `JsErr.typeError` stands for the
`TypeError` the runtime raises when the code calls an `undefined` handler
(`onFulfilled(...)` or `onRejected.call(...)` on a missing function).
Promise settlement is modelled by `Except` outcomes threaded through the
chain; `thenStep` is the semantics of `promise.then(onFulfilled, onRejected)`
with possibly-absent handlers.
-/

namespace Ofetch

universe u v

/-- Errors flowing through the pipeline: a user-thrown value, or the
runtime `TypeError` raised by calling an absent handler. -/
inductive JsErr (ε : Type u) where
  | user : ε → JsErr ε
  | typeError : JsErr ε
deriving DecidableEq

variable {V : Type u} {ε : Type v}

/-- A handler pair as it sits in the execution chain: the optional
`fulfilled` and `rejected` functions of one interceptor (the terminal
dispatch step occupies one such slot with no rejection handler). -/
abbrev ChainPair (V : Type u) (ε : Type v) : Type (max u v) :=
  Option (V → Except (JsErr ε) V) × Option (JsErr ε → Except (JsErr ε) V)

/-- One registered interceptor entry, as pushed by `InterceptorManager.use`:
`fulfilled`, `rejected`, `synchronous` (default `false`) and the optional
`runWhen` predicate. -/
structure RegEntry (V : Type u) (ε : Type v) where
  fulfilled : Option (V → Except (JsErr ε) V)
  rejected : Option (JsErr ε → Except (JsErr ε) V)
  synchronous : Bool
  runWhen : Option (V → Bool)

/-- Options argument of `use` (`synchronous` defaults to false, `runWhen`
to absent, matching `options ? options.synchronous : false`). -/
structure UseOptions (V : Type u) where
  synchronous : Bool := false
  runWhen : Option (V → Bool) := none

/-- The interceptor registry: `this.handlers`, an array of entries where an
ejected slot holds `null` (here `none`). -/
structure InterceptorManager (V : Type u) (ε : Type v) where
  handlers : List (Option (RegEntry V ε))

/-- `new InterceptorManager()` — empty handler array. -/
def InterceptorManager.empty : InterceptorManager V ε := ⟨[]⟩

/-- `use(onFulfilled, onRejected, options)`: pushes the new entry and
returns `this.handlers.length - 1`, i.e. the index of the pushed slot. -/
def use (m : InterceptorManager V ε)
    (onFulfilled : Option (V → Except (JsErr ε) V))
    (onRejected : Option (JsErr ε → Except (JsErr ε) V))
    (options : Option (UseOptions V)) : InterceptorManager V ε × Nat :=
  let entry : RegEntry V ε :=
    { fulfilled := onFulfilled
      rejected := onRejected
      synchronous := match options with
        | some o => o.synchronous
        | none => false
      runWhen := match options with
        | some o => o.runWhen
        | none => none }
  (⟨m.handlers ++ [some entry]⟩, m.handlers.length)

/-- `eject(id)`: `if (this.handlers[id]) this.handlers[id] = null` — a
no-op when the slot is already empty or the index is out of range. -/
def eject (m : InterceptorManager V ε) (id : Nat) : InterceptorManager V ε :=
  if (m.handlers.getD id none).isSome then ⟨m.handlers.set id none⟩ else m

/-- `clear()`: `this.handlers = []`. -/
def clear (m : InterceptorManager V ε) : InterceptorManager V ε := ⟨[]⟩

/-- The sequence of entries visited by `forEach` (non-`null` slots, in
array order). -/
def liveList (l : List (Option (RegEntry V ε))) : List (RegEntry V ε) :=
  l.filterMap id

/-- `forEach` visit list of a registry. -/
def liveEntries (m : InterceptorManager V ε) : List (RegEntry V ε) :=
  liveList m.handlers

/-- Calling a possibly-absent `onFulfilled` on the evolving config:
`onFulfilled(newConfig)` raises a `TypeError` when the function is
`undefined`, otherwise runs it. -/
def callFulfilled (onF : Option (V → Except (JsErr ε) V)) (cfg : V) :
    Except (JsErr ε) V :=
  match onF with
  | none => .error .typeError
  | some f => f cfg

/-- Semantics of `promise.then(onFulfilled, onRejected)` for one settled
outcome: an absent handler passes the settlement through unchanged. -/
def thenStep (p : Except (JsErr ε) V)
    (onF : Option (V → Except (JsErr ε) V))
    (onR : Option (JsErr ε → Except (JsErr ε) V)) : Except (JsErr ε) V :=
  match p with
  | .ok v =>
    match onF with
    | some f => f v
    | none => .ok v
  | .error e =>
    match onR with
    | some r => r e
    | none => .error e

/-- The `while (i < len) promise = promise.then(chain[i++], chain[i++])`
loop: sequential attachment of every pair in the chain. -/
def runChain (p : Except (JsErr ε) V) (chain : List (ChainPair V ε)) :
    Except (JsErr ε) V :=
  chain.foldl (fun q pr => thenStep q pr.1 pr.2) p

/-- The `interceptors.request.forEach` walk of `request`: skip the entry
when `runWhen` is a function returning `false`, otherwise accumulate
`synchronousRequestInterceptors &&= interceptor.synchronous` and `unshift`
the handler pair (so the resulting list is the reverse of surviving
registration order).  Returns `(requestInterceptorChain,
synchronousRequestInterceptors)`. -/
def buildRequestChain (entries : List (RegEntry V ε)) (cfg : V) :
    List (ChainPair V ε) × Bool :=
  entries.foldl
    (fun acc e =>
      match e.runWhen with
      | some p =>
        if p cfg = false then acc
        else ((e.fulfilled, e.rejected) :: acc.1, acc.2 && e.synchronous)
      | none => ((e.fulfilled, e.rejected) :: acc.1, acc.2 && e.synchronous))
    ([], true)

/-- The `interceptors.response.forEach` walk: push every live pair in
registration order. -/
def buildResponseChain (entries : List (RegEntry V ε)) :
    List (ChainPair V ε) :=
  entries.map (fun e => (e.fulfilled, e.rejected))

/-- Terminal dispatch used by the pipeline.  The outer `Except` is a
synchronous throw of `#dispatchRequest` itself; the inner one is the
settlement of the promise it returns. -/
def Dispatch (V : Type u) (ε : Type v) : Type (max u v) :=
  V → Except (JsErr ε) (Except (JsErr ε) V)

/-- The dispatch step as it sits in the asynchronous chain: a synchronous
throw inside a `then` handler also rejects the resulting promise. -/
def dispatchHandler (d : Dispatch V ε) : V → Except (JsErr ε) V :=
  fun v =>
    match d v with
    | .error e => .error e
    | .ok p => p

/-- Asynchronous strategy: one flat chain — request pairs (already
reversed), then `[dispatchRequest, undefined]`, then response pairs — run
as a sequential promise chain starting from the resolved config. -/
def runAsyncStrategy (reqChain respChain : List (ChainPair V ε))
    (d : Dispatch V ε) (cfg : V) : Except (JsErr ε) V :=
  runChain (.ok cfg) (reqChain ++ (some (dispatchHandler d), none) :: respChain)

/-- Outcome of the synchronous request-interceptor loop: either control
reaches terminal dispatch with a config, or an uncaught exception
propagates out of `request`. -/
inductive SyncOutcome (V : Type u) (ε : Type v) where
  | proceed : V → SyncOutcome V ε
  | fault : JsErr ε → SyncOutcome V ε

/-- The synchronous-mode loop over the (already reversed) request chain:
`try { newConfig = await onFulfilled(newConfig) } catch (error) {
onRejected.call(this, error); break; }`.  The `onRejected` call sits
outside any `try`: its own throw (or its absence, a `TypeError`)
propagates out; its return value is discarded and the loop breaks with
the last successfully produced config. -/
def syncLoop : List (ChainPair V ε) → V → SyncOutcome V ε
  | [], cfg => .proceed cfg
  | (onF, onR) :: rest, cfg =>
    match callFulfilled onF cfg with
    | .ok cfg2 => syncLoop rest cfg2
    | .error err =>
      match onR with
      | none => .fault .typeError
      | some r =>
        match r err with
        | .ok _ => .proceed cfg
        | .error e2 => .fault e2

/-- After the synchronous loop: `try { promise = dispatchRequest(newConfig) }
catch (error) { return Promise.reject(error) }` — a synchronous throw of
dispatch short-circuits before any response interceptor is attached;
otherwise the returned promise is threaded through the response chain. -/
def afterDispatch (d : Dispatch V ε) (respChain : List (ChainPair V ε))
    (cfg : V) : Except (JsErr ε) V :=
  match d cfg with
  | .error e => .error e
  | .ok p => runChain p respChain

/-- Synchronous strategy: run the loop, then dispatch with the last good
config and thread the response chain. -/
def runSyncStrategy (reqChain respChain : List (ChainPair V ε))
    (d : Dispatch V ε) (cfg : V) : Except (JsErr ε) V :=
  match syncLoop reqChain cfg with
  | .fault e => .error e
  | .proceed c => afterDispatch d respChain c

/-- The interceptor-execution part of `FetchInstance.request` (after
config resolution): build both chains, pick the strategy from the
accumulated `synchronousRequestInterceptors` flag, and run it. -/
def request (reqEntries respEntries : List (RegEntry V ε))
    (d : Dispatch V ε) (cfg : V) : Except (JsErr ε) V :=
  let built := buildRequestChain reqEntries cfg
  let respChain := buildResponseChain respEntries
  if built.2 = false then runAsyncStrategy built.1 respChain d cfg
  else runSyncStrategy built.1 respChain d cfg

/-- `request` as invoked on a `FetchInstance`: the chains are built from
the registries' `forEach` visit lists. -/
def requestOn (reqMgr respMgr : InterceptorManager V ε)
    (d : Dispatch V ε) (cfg : V) : Except (JsErr ε) V :=
  request (liveEntries reqMgr) (liveEntries respMgr) d cfg

/-! ### Parameter values and the query helpers -/

/-- A JavaScript value as it may appear in a `params` / `query` object. -/
inductive ParamValue where
  | null
  | undef
  | str : String → ParamValue
  | num : Int → ParamValue
  | arr : List ParamValue → ParamValue

/-- Membership in the `clean` list `[null, undefined, '']`. -/
def isCleanValue : ParamValue → Bool
  | .null => true
  | .undef => true
  | .str s => s = ""
  | _ => false

/-- `Array.isArray(v) && !v.length`. -/
def isEmptyArray : ParamValue → Bool
  | .arr [] => true
  | _ => false

/-- Association-list model of a params object (`Object.keys` order). -/
abbrev Params := List (String × ParamValue)

/-- `cleanParams` (v2 of `ofetch.ts`): copies the object and deletes every
key whose value is `null`, `undefined`, the empty string, or an empty
array.  Nothing else is changed. -/
def cleanParams (params : Params) : Params :=
  params.filter (fun kv => !(isCleanValue kv.2 || isEmptyArray kv.2))

/-- `serializeQuery` (v1 of `ofetch.ts`): deletes the same clean/empty
keys in place, then rebuilds the object renaming each array-valued key
`key` to `key[]` with the array kept as is. -/
def serializeQuery (params : Params) : Params :=
  let remaining := params.filter (fun kv => !(isCleanValue kv.2 || isEmptyArray kv.2))
  remaining.map (fun kv =>
    match kv.2 with
    | .arr xs => (kv.1 ++ "[]", ParamValue.arr xs)
    | v => (kv.1, v))

/-! ### Config resolution (`request` lines 53–67) -/

/-- The fields of the per-call configuration that the resolution step of
`request` reads or writes. -/
structure ResolveConfig where
  url : Option String := none
  method : Option String := none
  baseURL : Option String := none
deriving DecidableEq

/-- `defu(config, configDefaults)` restricted to these scalar fields: the
call-site value wins whenever it is present. -/
def defuConfig (c d : ResolveConfig) : ResolveConfig :=
  { url := c.url.orElse (fun _ => d.url)
    method := c.method.orElse (fun _ => d.method)
    baseURL := c.baseURL.orElse (fun _ => d.baseURL) }

/-- Character-list test that `pat` begins `s`. -/
def beginsWith : List Char → List Char → Bool
  | [], _ => true
  | _ :: _, [] => false
  | c :: cs, d :: ds => c = d && beginsWith cs ds

/-- `/^https?/.test(url)`: the regex finds a match exactly when the url
begins with `http` (the trailing `s` is optional). -/
def testHttpScheme (s : String) : Bool := beginsWith "http".data s.data

/-- `method.toUpperCase()`. -/
def jsToUpperCase (s : String) : String := ⟨s.data.map Char.toUpper⟩

/-- The head of `FetchInstance.request` for a string target: store the
target as `config.url`, merge with the instance defaults, uppercase
`config.method` if present (`config.method?.toUpperCase()`), and drop
`baseURL` when `/^https?/` matches the url. -/
def resolveConfig (target : String) (config : Option ResolveConfig)
    (defaults : ResolveConfig) : ResolveConfig :=
  let c0 := { config.getD {} with url := some target }
  let c1 := defuConfig c0 defaults
  let c2 := { c1 with method := c1.method.map jsToUpperCase }
  if testHttpScheme (c2.url.getD "") then { c2 with baseURL := none } else c2

/-! ### Terminal dispatch (`#dispatchRequest`, `#addXSRFHeader`) -/

/-- The resolved request configuration consumed by `#dispatchRequest`. -/
structure FetchConfig where
  url : String := ""
  method : Option String := none
  headers : List (String × String) := []
  params : Option Params := none
  query : Option Params := none
  timeout : Option Nat := none
  raw : Bool := false
  native : Bool := false
  baseURL : Option String := none
  credentials : Option String := none
  xsrfCookieName : String := "XSRF-TOKEN"
  xsrfHeaderName : String := "X-XSRF-TOKEN"

/-- `config.headers[name] = value` on the header association list. -/
def setHeader (hs : List (String × String)) (name value : String) :
    List (String × String) :=
  if hs.any (fun p => p.1 = name) then
    hs.map (fun p => if p.1 = name then (name, value) else p)
  else hs ++ [(name, value)]

/-- `#addXSRFHeader`: when `credentials === 'include'`, the configured
cookie name is non-empty and that cookie is present (non-empty), set the
configured header to the cookie's value.  The cookie jar is the
`getCookies()` collaborator, passed in explicitly. -/
def addXSRFHeader (cookies : List (String × String)) (cfg : FetchConfig) :
    FetchConfig :=
  let cookie := (cookies.lookup cfg.xsrfCookieName).getD ""
  if cfg.credentials = some "include" ∧ cfg.xsrfCookieName ≠ "" ∧ cookie ≠ "" then
    { cfg with headers := setHeader cfg.headers cfg.xsrfHeaderName cookie }
  else cfg

/-- The `setTimeout` handle: armed until `clearTimeout`, firing (calling
`controller.abort()`) at `fireAt` milliseconds. -/
structure TimerModel where
  armed : Bool
  fireAt : Nat

/-- The three transport call shapes, each receiving the url, the final
config, and the abort signal's firing time (`none` when the signal can
never fire because its timer was cleared). -/
structure Transport (V : Type u) (ε : Type v) where
  nativeCall : String → FetchConfig → Option Nat → Except (JsErr ε) V
  rawCall : String → FetchConfig → Option Nat → Except (JsErr ε) V
  decodedCall : String → FetchConfig → Option Nat → Except (JsErr ε) V

/-- `if (config.params || config.query) config.query = config.params =
serializeQuery(config.query || config.params)`. -/
def serializeStep (cfg : FetchConfig) : FetchConfig :=
  if cfg.params.isSome || cfg.query.isSome then
    let s := serializeQuery ((cfg.query.orElse (fun _ => cfg.params)).getD [])
    { cfg with query := some s, params := some s }
  else cfg

/-- `#dispatchRequest`: arm the abort timer with `config.timeout`
(`setTimeout(cb, undefined)` coerces an absent timeout to `0`), apply the
XSRF header, serialize `params`/`query` when either is present, then
`clearTimeout(timeoutSignal)` — note this happens before any transport
call — and invoke exactly one of the three shapes: `native` first, else
`raw`, else the decoded call. -/
def dispatchRequest (cookies : List (String × String)) (t : Transport V ε)
    (cfg : FetchConfig) : Except (JsErr ε) V :=
  let timeoutSignal : TimerModel := { armed := true, fireAt := cfg.timeout.getD 0 }
  let cfg := serializeStep (addXSRFHeader cookies cfg)
  let timeoutSignal := { timeoutSignal with armed := false }
  let signal : Option Nat := if timeoutSignal.armed then some timeoutSignal.fireAt else none
  if cfg.native then t.nativeCall cfg.url cfg signal
  else if cfg.raw then t.rawCall cfg.url cfg signal
  else t.decodedCall cfg.url cfg signal

/-- A transport stub that honors the abort signal: it settles with `v`
after `delay` units, unless an armed signal fires strictly earlier, in
which case the call settles as the abort failure `abortErr`.  All three
shapes behave alike. -/
def honoringStub (delay : Nat) (v : V) (abortErr : JsErr ε) : Transport V ε :=
  let call := fun (_ : String) (_ : FetchConfig) (signal : Option Nat) =>
    match signal with
    | some fireAt => if fireAt < delay then Except.error abortErr else Except.ok v
    | none => Except.ok v
  { nativeCall := call, rawCall := call, decodedCall := call }

/-- A transport whose three shapes return three distinct markers, used to
observe which shape `#dispatchRequest` invokes. -/
def markerStub : Transport Nat Unit :=
  { nativeCall := fun _ _ _ => .ok 0
    rawCall := fun _ _ _ => .ok 1
    decodedCall := fun _ _ _ => .ok 2 }

/-! ### Chain-building and chain-execution lemmas -/

/-- The handler pair contributed by one registry entry. -/
def entryPair (e : RegEntry V ε) : ChainPair V ε := (e.fulfilled, e.rejected)

/-- The entry survives the `runWhen` check for this config. -/
def keepEntry (cfg : V) (e : RegEntry V ε) : Bool :=
  match e.runWhen with
  | some p => p cfg
  | none => true

theorem runChain_nil (p : Except (JsErr ε) V) : runChain p [] = p := rfl

theorem runChain_cons (p : Except (JsErr ε) V) (pr : ChainPair V ε)
    (rest : List (ChainPair V ε)) :
    runChain p (pr :: rest) = runChain (thenStep p pr.1 pr.2) rest := rfl

theorem runChain_append (p : Except (JsErr ε) V)
    (c1 c2 : List (ChainPair V ε)) :
    runChain p (c1 ++ c2) = runChain (runChain p c1) c2 :=
  List.foldl_append _ _ _ _

theorem buildRequestChain_go (entries : List (RegEntry V ε)) (cfg : V)
    (acc : List (ChainPair V ε) × Bool) :
    entries.foldl
      (fun acc e =>
        match e.runWhen with
        | some p =>
          if p cfg = false then acc
          else ((e.fulfilled, e.rejected) :: acc.1, acc.2 && e.synchronous)
        | none => ((e.fulfilled, e.rejected) :: acc.1, acc.2 && e.synchronous))
      acc =
    (((entries.filter (keepEntry cfg)).map entryPair).reverse ++ acc.1,
      acc.2 && (entries.filter (keepEntry cfg)).all (·.synchronous)) := by
  induction entries generalizing acc with
  | nil => simp
  | cons e rest ih =>
    rcases acc with ⟨accL, accB⟩
    rcases hrw : e.runWhen with _ | p
    · have hk : keepEntry cfg e = true := by simp [keepEntry, hrw]
      simp only [List.foldl_cons, hrw, ih, List.filter_cons, hk, if_pos]
      simp [entryPair, Bool.and_assoc]
    · by_cases hp : p cfg = false
      · have hk : keepEntry cfg e = false := by simp [keepEntry, hrw, hp]
        simp only [List.foldl_cons, hrw, hp, if_pos, ih, List.filter_cons, hk]
        simp
      · have hk : keepEntry cfg e = true := by
          simp [keepEntry, hrw]
          exact Bool.of_not_eq_false hp
        simp only [List.foldl_cons, hrw, hp, if_neg, ih, List.filter_cons, hk, if_pos]
        simp [entryPair, Bool.and_assoc]

theorem buildRequestChain_eq (entries : List (RegEntry V ε)) (cfg : V) :
    buildRequestChain entries cfg =
      (((entries.filter (keepEntry cfg)).map entryPair).reverse,
        (entries.filter (keepEntry cfg)).all (·.synchronous)) := by
  have h := buildRequestChain_go entries cfg ([], true)
  simpa [buildRequestChain] using h

/-! ### The asynchronous fulfilled path (claim C1) -/

/-- Left-to-right application of a list of functions. -/
def applyAll (fs : List (V → V)) (v : V) : V := fs.foldl (fun x f => f x) v

/-- An interceptor entry whose `onFulfilled` is a pure (never-throwing)
transformation and whose options are the `use` defaults (`synchronous`
false, no `runWhen`). -/
def pureEntry (f : V → V) (r : Option (JsErr ε → Except (JsErr ε) V)) :
    RegEntry V ε :=
  { fulfilled := some (fun v => .ok (f v)), rejected := r,
    synchronous := false, runWhen := none }

theorem runChain_pure
    (ps : List ((V → V) × Option (JsErr ε → Except (JsErr ε) V))) (v : V)
    (rest : List (ChainPair V ε)) :
    runChain (.ok v)
        ((ps.map (fun p => ((some fun x => Except.ok (p.1 x)), p.2))) ++ rest) =
      runChain (.ok (applyAll (ps.map Prod.fst) v)) rest := by
  induction ps generalizing v with
  | nil => simp [applyAll]
  | cons p rest2 ih =>
    simp only [List.map_cons, List.cons_append, runChain_cons, thenStep]
    rw [ih]
    simp [applyAll]

/-- Claim C1: in the asynchronous strategy, with N registered, non-skipped
request interceptors whose `onFulfilled` handlers are the pure functions
`fs` (in registration order) and M response interceptors with handlers
`gs`, the chain applies the request handlers in reverse registration
order to the evolving config (the `.reverse` on `fs`), then the terminal
dispatch `d`, then the response handlers in registration order. -/
theorem async_chain_order
    (fs gs : List ((V → V) × Option (JsErr ε → Except (JsErr ε) V)))
    (d : V → V) (cfg : V) :
    runAsyncStrategy
        (buildRequestChain (fs.map (fun p => pureEntry p.1 p.2)) cfg).1
        (buildResponseChain (gs.map (fun p => pureEntry p.1 p.2)))
        (fun v => .ok (.ok (d v))) cfg =
      .ok (applyAll (gs.map Prod.fst) (d (applyAll (fs.map Prod.fst).reverse cfg))) := by
  have hchain : (buildRequestChain (fs.map (fun p => pureEntry p.1 p.2)) cfg).1 =
      (fs.reverse.map (fun p => ((some fun x => Except.ok (p.1 x)), p.2))) := by
    rw [buildRequestChain_eq]
    have hfilter : (fs.map (fun p => pureEntry (ε := ε) p.1 p.2)).filter (keepEntry cfg) =
        fs.map (fun p => pureEntry p.1 p.2) := by
      apply List.filter_eq_self.mpr
      intro e he
      rcases List.mem_map.mp he with ⟨p, _, rfl⟩
      simp [keepEntry, pureEntry]
    simp only [hfilter]
    rw [← List.map_reverse, ← List.map_reverse]
    simp [Function.comp, entryPair, pureEntry]
  rw [runAsyncStrategy, hchain, runChain_pure]
  have hfst : fs.reverse.map Prod.fst = (fs.map Prod.fst).reverse := by
    rw [List.map_reverse]
  rw [hfst, runChain_cons]
  have hresp : buildResponseChain (gs.map (fun p => pureEntry (ε := ε) p.1 p.2)) =
      gs.map (fun p => ((some fun x => Except.ok (p.1 x)), p.2)) := by
    simp [buildResponseChain, Function.comp, entryPair, pureEntry]
  simp only [thenStep, dispatchHandler]
  rw [hresp]
  have := runChain_pure gs (d (applyAll (fs.map Prod.fst).reverse cfg))
      ([] : List (ChainPair V ε))
  simpa using this

/-! ### Asynchronous rejection propagation (claim C3) -/

theorem runChain_error_no_handlers (e : JsErr ε)
    (chain : List (ChainPair V ε)) (h : ∀ pr ∈ chain, pr.2 = none) :
    runChain (.error e) chain = .error e := by
  induction chain with
  | nil => rfl
  | cons pr rest ih =>
    have hpr : pr.2 = none := h pr (List.mem_cons_self pr rest)
    rw [runChain_cons]
    have hstep : thenStep (Except.error e) pr.1 pr.2 = .error e := by
      rw [hpr]; rfl
    rw [hstep]
    exact ih (fun q hq => h q (List.mem_cons_of_mem pr hq))

/-- Claim C3: in the asynchronous chain, (1) an error thrown by a stage's
`onFulfilled` is not caught by that same stage's own `onRejected` — it
leaves the stage as a rejection; (2) a rejection entering a stage that
supplies a rejection handler is absorbed by exactly that handler;
(3) a rejection entering a stage without a rejection handler passes
through unchanged; (4) if no remaining stage supplies a rejection
handler, the rejection reaches the caller unchanged. -/
theorem async_rejection_propagation
    (v : V) (e : JsErr ε) (f : V → Except (JsErr ε) V)
    (r r2 : JsErr ε → Except (JsErr ε) V)
    (onF onF2 onF3 : Option (V → Except (JsErr ε) V))
    (rest rest2 rest3 chain : List (ChainPair V ε)) :
    (f v = .error e →
      runChain (.ok v) ((some f, some r) :: rest) = runChain (.error e) rest) ∧
    (runChain (.error e) ((onF2, some r2) :: rest2) = runChain (r2 e) rest2) ∧
    (runChain (.error e) ((onF3, none) :: rest3) = runChain (.error e) rest3) ∧
    ((∀ pr ∈ chain, pr.2 = none) → runChain (.error e) chain = .error e) := by
  refine ⟨?_, ?_, ?_, ?_⟩
  · intro hf
    rw [runChain_cons]
    simp only [thenStep, hf]
  · rw [runChain_cons]; rfl
  · rw [runChain_cons]; rfl
  · exact runChain_error_no_handlers e chain

/-- Witness for C3 at concrete inputs (V = Nat, errors Nat): a handler
that throws `.user 3` on config `0`, a chain whose next stage recovers to
`7`, and a handlerless chain that lets `.user 3` reach the caller. -/
theorem async_rejection_propagation_witness :
    ((fun (_ : Nat) => (Except.error (.user 3) : Except (JsErr Nat) Nat)) 0 =
      .error (.user 3)) ∧
    runChain (.ok 0)
        (((some fun _ => Except.error (.user 3)), some fun _ => Except.ok 5) ::
          ((none : Option (Nat → Except (JsErr Nat) Nat)), some fun _ => Except.ok 7) :: []) =
      .ok 7 ∧
    runChain (.error (.user 3))
        ([((none : Option (Nat → Except (JsErr Nat) Nat)),
           (none : Option (JsErr Nat → Except (JsErr Nat) Nat)))]) = .error (.user 3) := by
  have h := async_rejection_propagation (V := Nat) (ε := Nat) 0 (.user 3)
      (fun _ => Except.error (.user 3)) (fun _ => Except.ok 5) (fun _ => Except.ok 7)
      none none none
      [((none : Option (Nat → Except (JsErr Nat) Nat)), some fun _ => Except.ok 7)] [] []
      [((none : Option (Nat → Except (JsErr Nat) Nat)),
        (none : Option (JsErr Nat → Except (JsErr Nat) Nat)))]
  refine ⟨rfl, ?_, ?_⟩
  · rw [h.1 rfl, h.2.1]; rfl
  · exact h.2.2.2 (by intro pr hpr; simp at hpr; rw [hpr])

/-! ### The synchronous strategy (claims C2 and C9) -/

/-- `runsClean chain cfg = some cfg2` states that walking `chain` from
`cfg`, every `onFulfilled` is present and succeeds, producing `cfg2`. -/
def runsClean : List (ChainPair V ε) → V → Option V
  | [], cfg => some cfg
  | (onF, _) :: rest, cfg =>
    match callFulfilled onF cfg with
    | .ok cfg2 => runsClean rest cfg2
    | .error _ => none

theorem syncLoop_append_clean (pre rest : List (ChainPair V ε))
    (cfg cfg2 : V) (h : runsClean pre cfg = some cfg2) :
    syncLoop (pre ++ rest) cfg = syncLoop rest cfg2 := by
  induction pre generalizing cfg with
  | nil =>
    simp only [runsClean] at h
    cases h
    rfl
  | cons pr pre2 ih =>
    rcases pr with ⟨onF, onR⟩
    simp only [runsClean] at h
    rcases hc : callFulfilled onF cfg with e | c
    · rw [hc] at h; cases h
    · rw [hc] at h
      simp only [List.cons_append, syncLoop, hc]
      exact ih c h

/-- Claim C2: when every registered, non-skipped request interceptor
declares `synchronous := true` and, in execution order, each interceptor
before `ke` succeeds (producing `cfg2`) while `ke`'s `onFulfilled` throws
`err`, the pipeline calls `ke`'s own paired `onRejected` with `err` (the
result is determined by `r err`), never runs the later interceptors
(`rpre`, which follow `ke` in execution order, are arbitrary), and — when
`onRejected` returns normally — terminal dispatch still proceeds with the
last successfully produced config `cfg2`. -/
theorem sync_throw_short_circuit
    (rpre rpost respEs : List (RegEntry V ε)) (ke : RegEntry V ε)
    (f : V → Except (JsErr ε) V) (r : JsErr ε → Except (JsErr ε) V)
    (d : Dispatch V ε) (cfg cfg2 : V) (err : JsErr ε)
    (hsync : ∀ e ∈ rpre ++ ke :: rpost, e.synchronous = true ∧ e.runWhen = none)
    (hf : ke.fulfilled = some f) (hr : ke.rejected = some r)
    (hpre : runsClean (rpost.reverse.map entryPair) cfg = some cfg2)
    (herr : f cfg2 = .error err) :
    request (rpre ++ ke :: rpost) respEs d cfg =
      match r err with
      | .ok _ => afterDispatch d (buildResponseChain respEs) cfg2
      | .error e2 => .error e2 := by
  have hkeep : ∀ e ∈ rpre ++ ke :: rpost, keepEntry cfg e = true := by
    intro e he
    have := (hsync e he).2
    simp [keepEntry, this]
  have hfilter : (rpre ++ ke :: rpost).filter (keepEntry cfg) = rpre ++ ke :: rpost :=
    List.filter_eq_self.mpr hkeep
  have hall : (rpre ++ ke :: rpost).all (·.synchronous) = true := by
    apply List.all_eq_true.mpr
    intro e he
    exact (hsync e he).1
  have hbuild : buildRequestChain (rpre ++ ke :: rpost) cfg =
      (rpost.reverse.map entryPair ++ entryPair ke :: rpre.reverse.map entryPair,
        true) := by
    rw [buildRequestChain_eq, hfilter, hall]
    congr 1
    simp [List.reverse_append]
  rw [request, hbuild]
  simp only [Bool.true_eq_false, if_false, if_neg]
  rw [runSyncStrategy, syncLoop_append_clean _ _ _ _ hpre]
  simp only [syncLoop, entryPair, hf, hr, callFulfilled, herr]
  rcases hre : r err with e2 | x
  · rfl
  · rfl

/-- Witness for C2: two synchronous interceptors; in execution order the
first adds 1 (clean), the second throws `.user 5` with a recovering
`onRejected`; dispatch multiplies by 10.  The request settles as
`.ok 10`: dispatch ran with the config produced by the first interceptor
(`0 + 1 = 1`), and the interceptor registered earliest (which would run
last) never ran. -/
theorem sync_throw_short_circuit_witness :
    runsClean ([⟨some fun v => Except.ok (v + 1), none⟩] :
        List (ChainPair Nat Nat)) 0 = some 1 ∧
    request
        ([{ fulfilled := some fun v => Except.ok (v + 100), rejected := none,
            synchronous := true, runWhen := none }] ++
          { fulfilled := some fun _ => Except.error (.user 5),
            rejected := some fun _ => Except.ok 99,
            synchronous := true, runWhen := none } ::
          [{ fulfilled := some fun v => Except.ok (v + 1), rejected := none,
             synchronous := true, runWhen := none }])
        [] (fun v => Except.ok (Except.ok (v * 10))) 0 = .ok 10 := by
  constructor
  · rfl
  · have h := sync_throw_short_circuit
      (V := Nat) (ε := Nat)
      [{ fulfilled := some fun v => Except.ok (v + 100), rejected := none,
         synchronous := true, runWhen := none }]
      [{ fulfilled := some fun v => Except.ok (v + 1), rejected := none,
         synchronous := true, runWhen := none }]
      []
      { fulfilled := some fun _ => Except.error (.user 5),
        rejected := some fun _ => Except.ok 99,
        synchronous := true, runWhen := none }
      (fun _ => Except.error (.user 5)) (fun _ => Except.ok 99)
      (fun v => Except.ok (Except.ok (v * 10))) 0 1 (.user 5)
      (by
        intro e he
        simp only [List.cons_append, List.nil_append, List.mem_cons,
          List.not_mem_nil, or_false] at he
        rcases he with rfl | rfl | rfl <;> exact ⟨rfl, rfl⟩)
      rfl rfl rfl rfl
    rw [h]
    rfl

/-- Claim C9 counterexample: one request interceptor registered with a
throwing `onFulfilled`, no `onRejected`, and `synchronous := true`.  The
synchronous strategy is chosen, the thrown error reaches
`onRejected.call(this, error)` with `onRejected` absent, and the whole
request faults with the runtime `TypeError` instead of tolerating the
absent handler. -/
theorem sync_absent_rejected_faults :
    request (V := Nat) (ε := Nat)
        [{ fulfilled := some fun _ => Except.error (.user 7), rejected := none,
           synchronous := true, runWhen := none }] []
        (fun v => Except.ok (Except.ok v)) 0 = .error .typeError := rfl

/-- Claim C9 (amended): the asynchronous strategy tolerates an absent
handler — an absent `onFulfilled` passes the fulfilled value through and
an absent `onRejected` passes the rejection through — but the
synchronous strategy does not: when an entry's `onFulfilled` throws (or
is itself absent) and its paired `onRejected` is absent, the request
faults with a `TypeError`. -/
theorem absent_handler_tolerance
    (v : V) (e err : JsErr ε)
    (onR onR2 : Option (JsErr ε → Except (JsErr ε) V))
    (onF : Option (V → Except (JsErr ε) V))
    (rest rest2 : List (ChainPair V ε)) (f : V → Except (JsErr ε) V) (cfg cfg2 : V) :
    thenStep (.ok v) none onR = .ok v ∧
    thenStep (.error e) onF none = .error e ∧
    (f cfg = .error err →
      syncLoop ((some f, none) :: rest) cfg = .fault .typeError) ∧
    syncLoop (((none : Option (V → Except (JsErr ε) V)), onR2) :: rest2) cfg2 =
      (match onR2 with
        | none => .fault .typeError
        | some r => match r .typeError with
          | .ok _ => .proceed cfg2
          | .error e2 => .fault e2) := by
  refine ⟨rfl, ?_, ?_, ?_⟩
  · cases onF <;> rfl
  · intro hf
    simp only [syncLoop, callFulfilled, hf]
  · simp only [syncLoop, callFulfilled]

/-- Witness for C9's amended theorem at concrete inputs. -/
theorem absent_handler_tolerance_witness :
    ((fun (_ : Nat) => (Except.error (.user 4) : Except (JsErr Nat) Nat)) 0 =
      .error (.user 4)) ∧
    syncLoop (((some fun _ => Except.error (.user 4)),
        (none : Option (JsErr Nat → Except (JsErr Nat) Nat))) :: []) 0 =
      .fault .typeError := by
  have h := absent_handler_tolerance (V := Nat) (ε := Nat) 0 (.user 4) (.user 4)
      none none none [] [] (fun _ => Except.error (.user 4)) 0 0
  exact ⟨rfl, h.2.2.1 rfl⟩

/-! ### Registry claims (C7 and C8) -/

theorem getD_set_ne (l : List (Option (RegEntry V ε))) (i j : Nat)
    (v : Option (RegEntry V ε)) (h : j ≠ i) :
    (l.set i v).getD j none = l.getD j none := by
  induction l generalizing i j with
  | nil => simp
  | cons x xs ih =>
    cases i with
    | zero =>
      cases j with
      | zero => exact absurd rfl h
      | succ j2 => simp [List.set, List.getD]
    | succ i2 =>
      cases j with
      | zero => simp [List.set, List.getD]
      | succ j2 =>
        have h2 : j2 ≠ i2 := fun hc => h (by rw [hc])
        simp only [List.set, List.getD_cons_succ]
        exact ih i2 j2 h2

theorem liveList_split (l : List (Option (RegEntry V ε))) (i : Nat)
    (e : RegEntry V ε) (h : l.getD i none = some e) :
    liveList l = liveList (l.take i) ++ e :: liveList (l.drop (i + 1)) ∧
    liveList (l.set i none) = liveList (l.take i) ++ liveList (l.drop (i + 1)) := by
  induction l generalizing i with
  | nil => simp [List.getD] at h
  | cons x xs ih =>
    cases i with
    | zero =>
      have hx : x = some e := by simpa [List.getD] using h
      subst hx
      simp [liveList, List.set]
    | succ i2 =>
      have h2 : xs.getD i2 none = some e := by simpa [List.getD] using h
      have ihx := ih i2 h2
      cases x with
      | none =>
        simpa [liveList, List.set, List.filterMap_cons] using ihx
      | some y =>
        simp only [liveList, List.set, List.take, List.drop,
          List.filterMap_cons, id] at ihx ⊢
        refine ⟨?_, ?_⟩ <;> simp [ihx.1, ihx.2]

/-- Claim C8: `eject` is exact.  When slot `id` is empty or out of range
it is a no-op (and raises no error); when slot `id` holds entry `e`,
ejecting removes exactly that entry from the `forEach` visit list — the
entries before and after it keep their original relative order — and
every other handle still designates its original slot content. -/
theorem eject_exact_removal (m : InterceptorManager V ε) (id : Nat) :
    (m.handlers.getD id none = none → eject m id = m) ∧
    (∀ e, m.handlers.getD id none = some e →
      liveEntries m =
        liveList (m.handlers.take id) ++ e :: liveList (m.handlers.drop (id + 1)) ∧
      liveEntries (eject m id) =
        liveList (m.handlers.take id) ++ liveList (m.handlers.drop (id + 1)) ∧
      ∀ j, j ≠ id → (eject m id).handlers.getD j none = m.handlers.getD j none) := by
  constructor
  · intro h
    have hfalse : (m.handlers.getD id none).isSome = false := by rw [h]; rfl
    unfold eject
    rw [hfalse]
    simp
  · intro e h
    have hsplit := liveList_split m.handlers id e h
    have hoccupied : (m.handlers.getD id none).isSome = true := by rw [h]; rfl
    refine ⟨hsplit.1, ?_, ?_⟩
    · simp only [eject, hoccupied, if_pos, liveEntries]
      exact hsplit.2
    · intro j hj
      simp only [eject, hoccupied, if_pos]
      exact getD_set_ne m.handlers id j none hj

/-- A pure concrete interceptor entry used by the registry witnesses. -/
def entPlus (k : Nat) : RegEntry Nat Nat :=
  { fulfilled := some fun v => Except.ok (v + k), rejected := none,
    synchronous := false, runWhen := none }

/-- A three-entry concrete registry. -/
def regThree : InterceptorManager Nat Nat :=
  ⟨[some (entPlus 1), some (entPlus 2), some (entPlus 3)]⟩

/-- Witness for C8 on a concrete three-entry registry: ejecting the middle
handle removes exactly the middle entry and keeps the outer two in their
original order. -/
theorem eject_exact_removal_witness :
    (regThree.handlers.getD 1 none).isSome = true ∧
    liveEntries (eject regThree 1) = [entPlus 1, entPlus 3] := by
  constructor
  · rfl
  · have h := (eject_exact_removal regThree 1).2 (entPlus 2) rfl
    rw [h.2.1]
    rfl

/-- Claim C7 counterexample: register entry A (handle 0), `clear()`, then
register entry B — `use` hands out handle 0 again, so the handle issued
before the clear designates the new, unrelated entry B, and ejecting with
the old handle removes B. -/
theorem handle_reuse_cex :
    (use (InterceptorManager.empty (V := Nat) (ε := Nat))
        (entPlus 1).fulfilled (entPlus 1).rejected none).2 = 0 ∧
    (use (clear (use (InterceptorManager.empty (V := Nat) (ε := Nat))
        (entPlus 1).fulfilled (entPlus 1).rejected none).1)
        (entPlus 2).fulfilled (entPlus 2).rejected none).2 = 0 ∧
    liveEntries (use (clear (use (InterceptorManager.empty (V := Nat) (ε := Nat))
        (entPlus 1).fulfilled (entPlus 1).rejected none).1)
        (entPlus 2).fulfilled (entPlus 2).rejected none).1 = [entPlus 2] ∧
    liveEntries (eject (use (clear (use (InterceptorManager.empty (V := Nat) (ε := Nat))
        (entPlus 1).fulfilled (entPlus 1).rejected none).1)
        (entPlus 2).fulfilled (entPlus 2).rejected none).1 0) = [] :=
  ⟨rfl, rfl, rfl, rfl⟩

/-- Claim C7 (amended): handles ARE reused across `clear()`.  `clear`
resets the handler array, so the next `use` returns handle 0 regardless
of the registry's history, and ejecting with a pre-clear handle removes
whatever new entry occupies that index. -/
theorem handles_restart_after_clear (m : InterceptorManager V ε)
    (onF : Option (V → Except (JsErr ε) V))
    (onR : Option (JsErr ε → Except (JsErr ε) V)) (opts : Option (UseOptions V)) :
    (use (clear m) onF onR opts).2 = 0 ∧
    liveEntries (eject (use (clear m) onF onR opts).1 0) = [] := by
  constructor
  · rfl
  · cases opts <;> rfl

/-! ### Parameter cleaning (claim C5) -/

/-- The example params object from the specification. -/
def exampleParams : Params :=
  [("a", .num 1), ("b", .null), ("c", .undef), ("d", .str ""), ("e", .arr []),
    ("f", .arr [.num 2, .num 2, .num 3])]

/-- Claim C5 counterexample: `cleanParams` does not de-duplicate array
values, so cleaning the spec's example does not yield the claimed
result with `f = [2, 3]`. -/
theorem cleanParams_dedup_cex :
    cleanParams exampleParams ≠
      [("a", ParamValue.num 1),
        ("f", ParamValue.arr [ParamValue.num 2, ParamValue.num 3])] := by
  intro h
  simp [cleanParams, exampleParams, isCleanValue, isEmptyArray] at h

/-- Claim C5 (amended): `cleanParams` removes exactly the keys whose
value is `null`, `undefined`, the empty string, or an empty array, and
leaves every surviving value unchanged — arrays are NOT de-duplicated.
Cleaning the spec's example yields `a = 1` and `f = [2, 2, 3]`, and
`serializeQuery` likewise keeps the duplicate array members (renaming the
key to `f[]`). -/
theorem cleanParams_exact (ps : Params) (k : String) (v : ParamValue) :
    ((k, v) ∈ cleanParams ps ↔
      (k, v) ∈ ps ∧ isCleanValue v = false ∧ isEmptyArray v = false) ∧
    cleanParams exampleParams =
      [("a", ParamValue.num 1),
        ("f", ParamValue.arr [ParamValue.num 2, ParamValue.num 2, ParamValue.num 3])] ∧
    serializeQuery exampleParams =
      [("a", ParamValue.num 1),
        ("f[]", ParamValue.arr [ParamValue.num 2, ParamValue.num 2, ParamValue.num 3])] := by
  refine ⟨?_, by rfl, by rfl⟩
  rw [cleanParams, List.mem_filter]
  simp

/-! ### Method resolution (claim C6) -/

/-- Claim C6 counterexample: with no method at the call site and none in
the instance defaults, the resolved configuration's method is absent —
not `GET`. -/
theorem method_no_get_default_cex :
    (resolveConfig "/ping" none {}).method = none ∧
    (none : Option String) ≠ some "GET" := by
  constructor
  · rfl
  · intro h
    cases h

/-- Claim C6 (amended): the resolved method is the uppercased supplied
method — call-site over defaults — and when neither supplies one it
stays absent (`config.method?.toUpperCase()` maps `undefined` to
`undefined`; the `GET` default belongs to the underlying transport, not
to this layer). -/
theorem method_uppercase_resolution (target : String)
    (c : Option ResolveConfig) (d : ResolveConfig) :
    (∀ mth, (c.getD {}).method = some mth →
      (resolveConfig target c d).method = some (jsToUpperCase mth)) ∧
    ((c.getD {}).method = none → ∀ mth, d.method = some mth →
      (resolveConfig target c d).method = some (jsToUpperCase mth)) ∧
    ((c.getD {}).method = none → d.method = none →
      (resolveConfig target c d).method = none) := by
  refine ⟨?_, ?_, ?_⟩ <;> intro h1
  · intro hm
    simp [resolveConfig, defuConfig, Option.orElse]
    rw [hm]
    split <;> rfl
  · intro mth hm
    simp [resolveConfig, defuConfig, Option.orElse]
    rw [h1, hm]
    split <;> rfl
  · intro hm
    simp [resolveConfig, defuConfig, Option.orElse]
    rw [h1, hm]
    split <;> rfl

/-- Witness for C6's amended theorem at concrete inputs: a call-site
`post` resolves to `POST`; defaults-only `put` resolves to `PUT`; both
absent stays absent. -/
theorem method_uppercase_resolution_witness :
    (resolveConfig "/ping" (some { method := some "post" }) {}).method = some "POST" ∧
    (resolveConfig "/ping" none { method := some "put" }).method = some "PUT" ∧
    (resolveConfig "/ping" none {}).method = none := by
  refine ⟨?_, ?_, ?_⟩
  · exact (method_uppercase_resolution "/ping" (some { method := some "post" }) {}).1
      "post" rfl
  · exact (method_uppercase_resolution "/ping" none { method := some "put" }).2.1
      rfl "put" rfl
  · exact (method_uppercase_resolution "/ping" none {}).2.2 rfl rfl

/-! ### Terminal dispatch claims (C4 and C10) -/

theorem addXSRFHeader_flags (cookies : List (String × String))
    (cfg : FetchConfig) :
    (addXSRFHeader cookies cfg).native = cfg.native ∧
    (addXSRFHeader cookies cfg).raw = cfg.raw := by
  unfold addXSRFHeader
  dsimp only
  split <;> exact ⟨rfl, rfl⟩

theorem serializeStep_flags (cfg : FetchConfig) :
    (serializeStep cfg).native = cfg.native ∧
    (serializeStep cfg).raw = cfg.raw := by
  unfold serializeStep
  split <;> exact ⟨rfl, rfl⟩

/-- `#dispatchRequest` always hands the transport a signal that can never
fire (`none`): `clearTimeout(timeoutSignal)` runs synchronously before
any transport call, so the abort timer is disarmed for every config. -/
theorem dispatchRequest_signal_cleared (cookies : List (String × String))
    (t : Transport V ε) (cfg : FetchConfig) :
    dispatchRequest cookies t cfg =
      (let cfg2 := serializeStep (addXSRFHeader cookies cfg)
        if cfg.native then t.nativeCall cfg2.url cfg2 none
        else if cfg.raw then t.rawCall cfg2.url cfg2 none
        else t.decodedCall cfg2.url cfg2 none) := by
  have h1 := addXSRFHeader_flags cookies cfg
  have h2 := serializeStep_flags (addXSRFHeader cookies cfg)
  simp only [dispatchRequest]
  rw [h2.1, h2.2, h1.1, h1.2]
  simp

/-- The spec's end-to-end timeout example config: url `/ping`, timeout 5. -/
def pingConfig : FetchConfig := { url := "/ping", timeout := some 5 }

/-- Claim C4 (code bug): with `timeout: 5` configured and a
signal-honoring transport stub that echoes `pong` after `delay` units,
`#dispatchRequest` settles with the normal response for EVERY delay —
including delays far beyond the timeout — because the code clears the
abort timer before invoking the transport.  The claim (and the spec's
example) requires a timeout failure for `delay > 5`. -/
theorem timeout_never_aborts (delay : Nat) :
    dispatchRequest []
        (honoringStub (ε := String) delay "pong" (.user "TimeoutError"))
        pingConfig = .ok "pong" := by
  rw [dispatchRequest_signal_cleared]
  rfl

/-- Claim C10: `#dispatchRequest` invokes exactly one of the three
transport shapes, chosen only by the `native` / `raw` flags: `native`
takes precedence over `raw` (both set ⇒ the native low-level call runs),
`raw` over the default decoded call.  The marker transport returns a
distinct value from each shape, so each equation pins down which single
shape ran. -/
theorem dispatch_shape_precedence (cfg : FetchConfig) :
    dispatchRequest [] markerStub { cfg with native := true, raw := true } = .ok 0 ∧
    dispatchRequest [] markerStub { cfg with native := true, raw := false } = .ok 0 ∧
    dispatchRequest [] markerStub { cfg with native := false, raw := true } = .ok 1 ∧
    dispatchRequest [] markerStub { cfg with native := false, raw := false } = .ok 2 := by
  refine ⟨?_, ?_, ?_, ?_⟩ <;> rw [dispatchRequest_signal_cleared] <;> rfl

end Ofetch
